import Mathlib

/-!
Verification of the job-orchestration layer of the ytms web front end
(`src/web-app/main.py`): the background download worker, the per-job log
ring buffer, the packaging step, the cleanup sweeper, and the artifact
download endpoint.  Filesystem effects are embedded as an explicit `FS`
state (paths are lists of components); thread interleaving is embedded
sequentially: the writes performed by the `/start` handler precede the
writes performed by the worker thread it spawns.
-/

set_option maxHeartbeats 1000000

namespace Ytms

/-- Job lifecycle status values stored in `job_store[job_id]["status"]`
("queued" / "running" / "done" / "error" in `src/web-app/main.py`). -/
inductive JobStatus
  | queued
  | running
  | done
  | error
deriving DecidableEq, Repr

/-- Environment outcome for one item of a batch processed by
`download_worker` (main.py lines 221-246): `mkdirFail` when
`os.makedirs(target_path, exist_ok=True)` raises for this item,
`downloadFail` when the directory step succeeds but
`md.download_item(...)` raises, `ok` when both succeed. -/
inductive ItemOutcome
  | mkdirFail
  | downloadFail
  | ok
deriving DecidableEq, Repr

/-- Observable effects of the item loop of `download_worker`
(main.py lines 221-255): the successive values assigned to the job's
`status` field, the indices of items whose download was invoked (in
invocation order), the indices of items whose download raised and whose
failure was logged by `logger.exception` (line 242), and whether control
reached `package_job_files` (line 249). -/
structure WorkerRun where
  statusWrites : List JobStatus
  attempts : List Nat
  failLogs : List Nat
  packaged : Bool
deriving DecidableEq, Repr

/-- The item loop of `download_worker` (main.py lines 221-255), item by
item, starting at item index `idx`.  On `mkdirFail` the code sets the
job's status to "error" and returns (lines 230-235), skipping the
remaining items and the packaging step.  On `downloadFail` the `except`
clause logs the failure and sets status "error" (lines 241-246) and the
loop continues.  When the loop finishes, packaging runs and the job is
marked "done" with the artifact recorded (lines 248-255). -/
def runItems (idx : Nat) : List ItemOutcome → WorkerRun
  | [] => ⟨[JobStatus.done], [], [], true⟩
  | ItemOutcome.mkdirFail :: _ => ⟨[JobStatus.error], [], [], false⟩
  | ItemOutcome.downloadFail :: rest =>
      let r := runItems (idx + 1) rest
      ⟨JobStatus.error :: r.statusWrites, idx :: r.attempts, idx :: r.failLogs, r.packaged⟩
  | ItemOutcome.ok :: rest =>
      let r := runItems (idx + 1) rest
      ⟨r.statusWrites, idx :: r.attempts, r.failLogs, r.packaged⟩

/-- Status writes performed by one run of `download_worker`: it first
sets the job's status to "running" (main.py line 207), then runs the
item loop. -/
def workerStatusWrites (items : List ItemOutcome) : List JobStatus :=
  JobStatus.running :: (runItems 0 items).statusWrites

/-- Every write to a job's `status` field over its lifetime, in order:
`/start` creates the job as "queued" (main.py line 436), then sets it to
"running" (line 449), then the spawned worker performs its writes. -/
def jobStatusWrites (items : List ItemOutcome) : List JobStatus :=
  JobStatus.queued :: JobStatus.running :: workerStatusWrites items

/-- Whether some element satisfying `q` occurs strictly after some
element satisfying `p` in the list. -/
def hasAfter (p q : JobStatus → Bool) : List JobStatus → Bool
  | [] => false
  | w :: rest => (p w && rest.any q) || hasAfter p q rest

/-- Terminal status values ("done" or "error"). -/
def isTerminalWrite : JobStatus → Bool
  | JobStatus.done => true
  | JobStatus.error => true
  | _ => false

/-- Status values forbidden after a terminal write by claim C1
("running" or "done"). -/
def isActiveWrite : JobStatus → Bool
  | JobStatus.running => true
  | JobStatus.done => true
  | _ => false

/-- The status value "running". -/
def isRunningWrite : JobStatus → Bool
  | JobStatus.running => true
  | _ => false

/-- The status value "done". -/
def isDoneWrite : JobStatus → Bool
  | JobStatus.done => true
  | _ => false

/-- Fixed capacity of a job's log ring buffer (main.py line 75). -/
def MAX_JOB_LOG_LINES : Nat := 200

/-- One append to a job's log buffer by `ListHandler.emit`
(main.py lines 93-95): `job["logs"].append(msg)` followed by
`job["logs"].pop(0)` when the length exceeds `MAX_JOB_LOG_LINES`. -/
def jobLogAppend (logs : List String) (msg : String) : List String :=
  let l := logs ++ [msg]
  if MAX_JOB_LOG_LINES < l.length then l.drop 1 else l

/- ## Helper lemmas about the worker's write trace -/

theorem hasAfter_false_of_no_q (p q : JobStatus → Bool) (l : List JobStatus)
    (h : l.any q = false) : hasAfter p q l = false := by
  induction l with
  | nil => rfl
  | cons w rest ih =>
    simp only [List.any_cons, Bool.or_eq_false_iff] at h
    simp only [hasAfter, h.2, Bool.and_false, Bool.false_or, ih h.2]

theorem runItems_no_running (idx : Nat) (items : List ItemOutcome) :
    (runItems idx items).statusWrites.any isRunningWrite = false := by
  induction items generalizing idx with
  | nil => rfl
  | cons o rest ih =>
    cases o with
    | mkdirFail => rfl
    | downloadFail => simpa [runItems, isRunningWrite] using ih (idx + 1)
    | ok => simpa [runItems] using ih (idx + 1)

theorem runItems_no_write_after_done (idx : Nat) (items : List ItemOutcome) :
    hasAfter isDoneWrite (fun _ => true) (runItems idx items).statusWrites = false := by
  induction items generalizing idx with
  | nil => rfl
  | cons o rest ih =>
    cases o with
    | mkdirFail => rfl
    | downloadFail =>
      simpa [runItems, hasAfter, isDoneWrite] using ih (idx + 1)
    | ok => simpa [runItems] using ih (idx + 1)

/-- Claim C1, counterexample: for a single-item batch whose download
raises, the write trace of the job's status field is
[queued, running, running, error, done] — the final packaging step of
`download_worker` (main.py line 253) sets "done" after the `except`
clause (line 245) already set "error", so a "done"-or-"running" write
does occur after a terminal write, contrary to the claim. -/
theorem C1_counterexample :
    hasAfter isTerminalWrite isActiveWrite
      (jobStatusWrites [ItemOutcome.downloadFail]) = true := by decide

/-- Claim C1, amended: a job's status is never set to "running" after it
has been set to "done" or "error", and nothing is ever written after
"done"; the one transition outside the claimed edges is that a job
marked "error" by a per-item download failure is finally marked "done"
when the batch finishes and packaging completes. -/
theorem C1_amended_no_reactivation (items : List ItemOutcome) :
    hasAfter isTerminalWrite isRunningWrite (jobStatusWrites items) = false ∧
    hasAfter isDoneWrite (fun _ => true) (jobStatusWrites items) = false := by
  constructor
  · show hasAfter _ _ (JobStatus.queued :: JobStatus.running :: JobStatus.running ::
      (runItems 0 items).statusWrites) = false
    simp only [hasAfter, isTerminalWrite, Bool.false_and, Bool.false_or]
    exact hasAfter_false_of_no_q _ _ _ (runItems_no_running 0 items)
  · show hasAfter _ _ (JobStatus.queued :: JobStatus.running :: JobStatus.running ::
      (runItems 0 items).statusWrites) = false
    simp only [hasAfter, isDoneWrite, Bool.false_and, Bool.false_or]
    exact runItems_no_write_after_done 0 items

/- ## C2: per-item download failures do not abort the remaining items -/

theorem runItems_attempts_of_no_mkdirFail (idx : Nat) (items : List ItemOutcome)
    (h : ItemOutcome.mkdirFail ∉ items) :
    (runItems idx items).attempts = List.range' idx items.length := by
  induction items generalizing idx with
  | nil => rfl
  | cons o rest ih =>
    have ho : o ≠ ItemOutcome.mkdirFail := fun he => h (he ▸ List.mem_cons_self o rest)
    have hrest : ItemOutcome.mkdirFail ∉ rest := fun hm => h (List.mem_cons_of_mem o hm)
    cases o with
    | mkdirFail => exact absurd rfl ho
    | downloadFail =>
      simp only [runItems, List.length_cons, List.range'_succ]
      exact congrArg (idx :: ·) (ih (idx + 1) hrest)
    | ok =>
      simp only [runItems, List.length_cons, List.range'_succ]
      exact congrArg (idx :: ·) (ih (idx + 1) hrest)

theorem runItems_failLog_mem (idx : Nat) (items : List ItemOutcome) (k : Nat)
    (hk : items.get? k = some ItemOutcome.downloadFail)
    (h : ItemOutcome.mkdirFail ∉ items) :
    idx + k ∈ (runItems idx items).failLogs := by
  induction items generalizing idx k with
  | nil => simp at hk
  | cons o rest ih =>
    have hrest : ItemOutcome.mkdirFail ∉ rest := fun hm => h (List.mem_cons_of_mem o hm)
    cases k with
    | zero =>
      simp only [List.get?] at hk
      cases hk
      simp [runItems]
    | succ k' =>
      simp only [List.get?] at hk
      have heq : idx + 1 + k' = idx + (k' + 1) := by omega
      cases o with
      | mkdirFail => exact absurd (List.mem_cons_self _ _) h
      | downloadFail =>
        have hmem := ih (idx + 1) k' hk hrest
        rw [heq] at hmem
        simp only [runItems, List.mem_cons]
        exact Or.inr hmem
      | ok =>
        have hmem := ih (idx + 1) k' hk hrest
        rw [heq] at hmem
        simpa [runItems] using hmem

theorem runItems_error_write_mem (idx : Nat) (items : List ItemOutcome) (k : Nat)
    (hk : items.get? k = some ItemOutcome.downloadFail) :
    JobStatus.error ∈ (runItems idx items).statusWrites := by
  induction items generalizing idx k with
  | nil => simp at hk
  | cons o rest ih =>
    cases k with
    | zero =>
      simp only [List.get?] at hk
      cases hk
      simp [runItems]
    | succ k' =>
      simp only [List.get?] at hk
      cases o with
      | mkdirFail => simp [runItems]
      | downloadFail => simp [runItems]
      | ok => simpa [runItems] using ih (idx + 1) k' hk

/-- Claim C2: if directory creation succeeds throughout the batch and
the item at position k raises during download, `download_worker` logs
the failure, writes "error" to the job's status, and still invokes the
download of every item of the batch — including every item after
position k — in submission order (the attempt list is exactly
[0, 1, ..., n-1]). -/
theorem C2_per_item_failure_continues (items : List ItemOutcome) (k : Nat)
    (hk : items.get? k = some ItemOutcome.downloadFail)
    (hnomk : ItemOutcome.mkdirFail ∉ items) :
    (runItems 0 items).attempts = List.range items.length ∧
    k ∈ (runItems 0 items).failLogs ∧
    JobStatus.error ∈ (runItems 0 items).statusWrites := by
  refine ⟨?_, ?_, runItems_error_write_mem 0 items k hk⟩
  · rw [List.range_eq_range']
    exact runItems_attempts_of_no_mkdirFail 0 items hnomk
  · simpa using runItems_failLog_mem 0 items k hk hnomk

/-- Claim C2, witness: a two-item batch whose second item raises. -/
theorem C2_witness :
    ([ItemOutcome.ok, ItemOutcome.downloadFail].get? 1 = some ItemOutcome.downloadFail) ∧
    ((runItems 0 [ItemOutcome.ok, ItemOutcome.downloadFail]).attempts = List.range 2 ∧
      1 ∈ (runItems 0 [ItemOutcome.ok, ItemOutcome.downloadFail]).failLogs ∧
      JobStatus.error ∈ (runItems 0 [ItemOutcome.ok, ItemOutcome.downloadFail]).statusWrites) :=
  ⟨by decide,
    C2_per_item_failure_continues [ItemOutcome.ok, ItemOutcome.downloadFail] 1
      (by decide) (by decide)⟩

/- ## C6: directory-creation failure is fatal to the job -/

theorem runItems_mkdirFail_shape (idx : Nat) (items : List ItemOutcome) (k : Nat)
    (hk : items.get? k = some ItemOutcome.mkdirFail)
    (hfirst : ∀ j, j < k → items.get? j ≠ some ItemOutcome.mkdirFail) :
    (∃ m, (runItems idx items).statusWrites = List.replicate (m + 1) JobStatus.error) ∧
    (runItems idx items).packaged = false ∧
    (runItems idx items).attempts = List.range' idx k := by
  induction items generalizing idx k with
  | nil => simp at hk
  | cons o rest ih =>
    cases k with
    | zero =>
      simp only [List.get?] at hk
      cases hk
      exact ⟨⟨0, rfl⟩, rfl, rfl⟩
    | succ k' =>
      have ho : o ≠ ItemOutcome.mkdirFail := by
        have := hfirst 0 (Nat.succ_pos k')
        simpa using this
      simp only [List.get?] at hk
      have hfirst' : ∀ j, j < k' → rest.get? j ≠ some ItemOutcome.mkdirFail := by
        intro j hj
        have := hfirst (j + 1) (by omega)
        simpa using this
      cases o with
      | mkdirFail => exact absurd rfl ho
      | downloadFail =>
        obtain ⟨⟨m, hw⟩, hp, ha⟩ := ih (idx + 1) k' hk hfirst'
        refine ⟨⟨m + 1, ?_⟩, ?_, ?_⟩
        · simp [runItems, hw, List.replicate_succ]
        · simpa [runItems] using hp
        · simp [runItems, ha, List.range'_succ]
      | ok =>
        obtain ⟨⟨m, hw⟩, hp, ha⟩ := ih (idx + 1) k' hk hfirst'
        refine ⟨⟨m, ?_⟩, ?_, ?_⟩
        · simpa [runItems] using hw
        · simpa [runItems] using hp
        · simp [runItems, ha, List.range'_succ]

/-- Claim C6: if creating the target directory fails at item k (the
first such failure), `download_worker` sets the job to "error" and
returns (main.py lines 230-235): packaging is never invoked, "done" is
never written, the last status write is "error", and the downloads
invoked are exactly those of the items before k (so no remaining item
of the batch is downloaded). -/
theorem C6_mkdirFail_aborts (items : List ItemOutcome) (k : Nat)
    (hk : items.get? k = some ItemOutcome.mkdirFail)
    (hfirst : ∀ j, j < k → items.get? j ≠ some ItemOutcome.mkdirFail) :
    (runItems 0 items).packaged = false ∧
    JobStatus.done ∉ (runItems 0 items).statusWrites ∧
    (runItems 0 items).statusWrites.getLast? = some JobStatus.error ∧
    (runItems 0 items).attempts = List.range k := by
  obtain ⟨⟨m, hw⟩, hp, ha⟩ := runItems_mkdirFail_shape 0 items k hk hfirst
  refine ⟨hp, ?_, ?_, ?_⟩
  · rw [hw]
    simp [List.mem_replicate]
  · rw [hw, List.replicate_succ']
    simp
  · rw [List.range_eq_range']
    exact ha

/-- Claim C6, witness: a three-item batch where directory creation
fails at item 1. -/
theorem C6_witness :
    ([ItemOutcome.ok, ItemOutcome.mkdirFail, ItemOutcome.ok].get? 1 =
        some ItemOutcome.mkdirFail) ∧
    ((runItems 0 [ItemOutcome.ok, ItemOutcome.mkdirFail, ItemOutcome.ok]).packaged = false ∧
      JobStatus.done ∉
        (runItems 0 [ItemOutcome.ok, ItemOutcome.mkdirFail, ItemOutcome.ok]).statusWrites ∧
      (runItems 0 [ItemOutcome.ok, ItemOutcome.mkdirFail,
        ItemOutcome.ok]).statusWrites.getLast? = some JobStatus.error ∧
      (runItems 0 [ItemOutcome.ok, ItemOutcome.mkdirFail, ItemOutcome.ok]).attempts =
        List.range 1) :=
  ⟨by decide,
    C6_mkdirFail_aborts [ItemOutcome.ok, ItemOutcome.mkdirFail, ItemOutcome.ok] 1
      (by decide) (by decide)⟩

/- ## C7: bounded FIFO log buffer -/

theorem jobLogAppend_length_le (logs : List String) (m : String)
    (h : logs.length ≤ MAX_JOB_LOG_LINES) :
    (jobLogAppend logs m).length ≤ MAX_JOB_LOG_LINES := by
  simp only [jobLogAppend]
  split
  · simp only [List.length_drop, List.length_append, List.length_singleton]
    omega
  · next hc =>
    simp only [List.length_append, List.length_singleton] at hc ⊢
    omega

theorem jobLog_foldl_length_le (msgs : List String) (logs : List String)
    (h : logs.length ≤ MAX_JOB_LOG_LINES) :
    (msgs.foldl jobLogAppend logs).length ≤ MAX_JOB_LOG_LINES := by
  induction msgs generalizing logs with
  | nil => simpa using h
  | cons m rest ih => exact ih _ (jobLogAppend_length_le logs m h)

theorem jobLogAppend_full (logs : List String) (m : String)
    (h : logs.length = MAX_JOB_LOG_LINES) :
    jobLogAppend logs m = logs.drop 1 ++ [m] := by
  have h1 : 1 ≤ logs.length := by
    rw [h]
    decide
  simp only [jobLogAppend]
  split
  · exact List.drop_append_of_le_length h1
  · next hc =>
    exfalso
    simp only [List.length_append, List.length_singleton] at hc
    omega

theorem jobLogAppend_not_full (logs : List String) (m : String)
    (h : logs.length < MAX_JOB_LOG_LINES) :
    jobLogAppend logs m = logs ++ [m] := by
  simp only [jobLogAppend]
  split
  · next hc =>
    exfalso
    simp only [List.length_append, List.length_singleton] at hc
    omega
  · rfl

/-- Claim C7: starting from any buffer within capacity, any sequence of
appends through `ListHandler.emit` keeps the job's log buffer at no
more than `MAX_JOB_LOG_LINES` (200) lines; an append to a full buffer
evicts exactly the oldest line (FIFO), and an append to a non-full
buffer evicts nothing. -/
theorem C7_log_buffer_bounded_fifo (logs : List String) (m : String) (msgs : List String)
    (h : logs.length ≤ MAX_JOB_LOG_LINES) :
    (msgs.foldl jobLogAppend logs).length ≤ MAX_JOB_LOG_LINES ∧
    (logs.length = MAX_JOB_LOG_LINES → jobLogAppend logs m = logs.drop 1 ++ [m]) ∧
    (logs.length < MAX_JOB_LOG_LINES → jobLogAppend logs m = logs ++ [m]) :=
  ⟨jobLog_foldl_length_le msgs logs h,
   fun hf => jobLogAppend_full logs m hf,
   fun hf => jobLogAppend_not_full logs m hf⟩

/-- Claim C7, witness: a one-line buffer and two appends. -/
theorem C7_witness :
    (["a"].length ≤ MAX_JOB_LOG_LINES) ∧
    ((["b", "c"].foldl jobLogAppend ["a"]).length ≤ MAX_JOB_LOG_LINES ∧
      (["a"].length = MAX_JOB_LOG_LINES → jobLogAppend ["a"] "x" = ["a"].drop 1 ++ ["x"]) ∧
      (["a"].length < MAX_JOB_LOG_LINES → jobLogAppend ["a"] "x" = ["a"] ++ ["x"])) :=
  ⟨by decide, C7_log_buffer_bounded_fifo ["a"] "x" ["b", "c"] (by decide)⟩

/- ## Filesystem model and the packager (main.py lines 111-194) -/

/-- Audio extension allow-list `ALLOWED_EXT` (main.py line 112). -/
def ALLOWED_EXT : List String := [".mp3", ".m4a", ".flac", ".wav", ".ogg", ".aac"]

/-- Index of the last '.' in a character list, if any (Python
`str.rfind`). -/
def lastDotIdx (cs : List Char) : Option Nat :=
  ((List.range cs.length).filter (fun i => decide (cs.getD i ' ' = '.'))).getLast?

/-- `pathlib.PurePath.suffix` of a file name: the substring from the
last dot, provided that dot is neither the first nor the last
character; otherwise the empty string. -/
def pySuffix (name : String) : String :=
  match lastDotIdx name.toList with
  | none => ""
  | some i =>
      if 0 < i ∧ i < name.toList.length - 1 then String.mk (name.toList.drop i) else ""

/-- Python `str.lower()` restricted to the ASCII range (the allow-list
entries it is compared against are all ASCII). -/
def asciiLowerChar (c : Char) : Char :=
  if c.isUpper then Char.ofNat (c.toNat + 32) else c

/-- Lowercase every ASCII letter of a string. -/
def asciiLower (s : String) : String :=
  String.mk (s.toList.map asciiLowerChar)

/-- The check `item.suffix.lower() in ALLOWED_EXT` applied to a file
name (main.py lines 136, 149). -/
def isAudioName (name : String) : Bool :=
  decide (asciiLower (pySuffix name) ∈ ALLOWED_EXT)

/-- A file on disk: its path (as components) and its modification
time in seconds. -/
structure FSFile where
  path : List String
  mtime : Int
deriving DecidableEq, Repr

/-- The filesystem state: the existing regular files and the existing
directories, each identified by its component path. -/
structure FS where
  files : List FSFile
  dirs : List (List String)
deriving DecidableEq, Repr

/-- `os.path.exists` restricted to regular files. -/
def fileExists (fs : FS) (p : List String) : Bool :=
  fs.files.any (fun f => decide (f.path = p))

/-- Last component of a path (`pathlib.Path.name`). -/
def pathName (p : List String) : String :=
  (p.getLast?).getD ""

/-- The scan `for item in p.rglob("*"): if item.is_file() and
item.suffix.lower() in ALLOWED_EXT` (main.py lines 135-137 and
148-149): every file strictly below `dir` whose name carries an
allowed audio extension, in scan order. -/
def scanAudioUnder (fs : FS) (dir : List String) : List (List String) :=
  (fs.files.filter (fun f =>
      decide (dir <+: f.path) && decide (f.path ≠ dir) &&
        isAudioName (pathName f.path))).map FSFile.path

/-- `find_downloaded_files` (main.py lines 129-155): recursively
collect audio files under `job_dir`; if none and `search_parent`, and
`~/Music` exists, also collect audio files under `~/Music` modified
within the last 60 seconds. -/
def find_downloaded_files (fs : FS) (jobDir musicDir : List String) (now : Int)
    (searchParent : Bool) : List (List String) :=
  let found := scanAudioUnder fs jobDir
  if found.isEmpty && searchParent then
    if musicDir ∈ fs.dirs then
      found ++ (fs.files.filter (fun f =>
          decide (musicDir <+: f.path) && decide (f.path ≠ musicDir) &&
            isAudioName (pathName f.path) && decide (now - f.mtime < 60))).map FSFile.path
    else found
  else found

/-- Create or overwrite the file at path `p` (`shutil.copy2` target or
`zipfile.ZipFile(..., 'w')`). -/
def FS.addFile (fs : FS) (p : List String) (mt : Int) : FS :=
  ⟨⟨p, mt⟩ :: fs.files.filter (fun f => decide (f.path ≠ p)), fs.dirs⟩

/-- The copy-in loop of `package_job_files` (main.py lines 170-182):
files outside the job directory are copied into it under their base
name (`shutil.copy2` preserves the modification time); files already
inside are kept as they are.  Returns the filesystem after the copies,
the `local_files` list, and the (source, destination) pairs copied. -/
def copyIn (jobDir : List String) (fs : FS) :
    List (List String) → FS × List (List String) × List (List String × List String)
  | [] => (fs, [], [])
  | f :: rest =>
      if jobDir <+: f then
        let r := copyIn jobDir fs rest
        (r.1, f :: r.2.1, r.2.2)
      else
        let dest := jobDir ++ [pathName f]
        let mt := ((fs.files.find? (fun x => decide (x.path = f))).map FSFile.mtime).getD 0
        let r := copyIn jobDir (fs.addFile dest mt) rest
        (r.1, dest :: r.2.1, (f, dest) :: r.2.2)

/-- Result of `package_job_files`: the returned artifact path (or
`None`), the filesystem afterwards, the copies performed, and, when a
zip was created, its path and the arcnames written into it in order. -/
structure PackageResult where
  artifact : Option (List String)
  fs : FS
  copies : List (List String × List String)
  archive : Option (List String × List String)
deriving DecidableEq, Repr

/-- `package_job_files` (main.py lines 158-194): find the produced
audio files; if none, return `None`; copy out-of-tree matches into the
job directory; if exactly one file results return it unchanged,
otherwise write all of them into `job_dir/{job_id}.zip` under their
base names and return the zip path. -/
def package_job_files (jobId : String) (jobDir musicDir : List String) (now : Int)
    (fs : FS) : PackageResult :=
  let files := find_downloaded_files fs jobDir musicDir now true
  if files.isEmpty then ⟨none, fs, [], none⟩
  else
    let r := copyIn jobDir fs files
    if r.2.1.length = 1 then ⟨r.2.1.head?, r.1, r.2.2, none⟩
    else
      let zipPath := jobDir ++ [jobId ++ ".zip"]
      ⟨some zipPath, (r.1).addFile zipPath now, r.2.2,
        some (zipPath, (r.2.1).map pathName)⟩

/-- A record of `job_store` (main.py lines 436 and 520): creation
time, backing directory, lifecycle status, optional artifact path, log
buffer, optional download-mode tag, optional completion time. -/
structure Job where
  created_at : Int
  dir : List String
  status : JobStatus
  file_path : Option (List String)
  logs : List String
  mode : Option String
  ready_at : Option Int
deriving DecidableEq, Repr

/-- The completion block of `download_worker` (main.py lines 250-255):
unconditionally set status "done", record the packaged path (possibly
`None`) and the completion timestamp. -/
def finishJob (job : Job) (artifact : Option (List String)) (now : Int) : Job :=
  ⟨job.created_at, job.dir, JobStatus.done, artifact, job.logs, job.mode, some now⟩

/- ## Packager lemmas -/

theorem mem_pathsOfFilter_fileExists (fs : FS) (q : FSFile → Bool) (p : List String)
    (hp : p ∈ (fs.files.filter q).map FSFile.path) : fileExists fs p = true := by
  simp only [List.mem_map] at hp
  obtain ⟨f, hf, rfl⟩ := hp
  have hf' := (List.mem_filter.mp hf).1
  simp only [fileExists, List.any_eq_true]
  exact ⟨f, hf', by simp⟩

theorem find_mem_fileExists (fs : FS) (jobDir musicDir : List String) (now : Int)
    (sp : Bool) :
    ∀ p ∈ find_downloaded_files fs jobDir musicDir now sp, fileExists fs p = true := by
  intro p hp
  simp only [find_downloaded_files, scanAudioUnder] at hp
  split at hp
  · split at hp
    · rcases List.mem_append.mp hp with h | h
      · exact mem_pathsOfFilter_fileExists fs _ p h
      · exact mem_pathsOfFilter_fileExists fs _ p h
    · exact mem_pathsOfFilter_fileExists fs _ p hp
  · exact mem_pathsOfFilter_fileExists fs _ p hp

theorem fileExists_addFile_self (fs : FS) (p : List String) (mt : Int) :
    fileExists (fs.addFile p mt) p = true := by
  simp [fileExists, FS.addFile]

theorem fileExists_addFile (fs : FS) (p q : List String) (mt : Int)
    (h : fileExists fs q = true) : fileExists (fs.addFile p mt) q = true := by
  by_cases hq : q = p
  · subst hq
    exact fileExists_addFile_self fs q mt
  · simp only [fileExists, List.any_eq_true, decide_eq_true_eq] at h ⊢
    obtain ⟨f, hf, hfp⟩ := h
    refine ⟨f, ?_, hfp⟩
    simp only [FS.addFile, List.mem_cons]
    right
    refine List.mem_filter.mpr ⟨hf, ?_⟩
    rw [decide_eq_true_eq, hfp]
    exact hq

theorem copyIn_fileExists_mono (jobDir : List String) (files : List (List String))
    (fs : FS) (q : List String) (h : fileExists fs q = true) :
    fileExists (copyIn jobDir fs files).1 q = true := by
  induction files generalizing fs with
  | nil => simpa [copyIn] using h
  | cons f rest ih =>
    by_cases hf : jobDir <+: f
    · simpa [copyIn, hf] using ih fs h
    · simpa [copyIn, hf] using ih _ (fileExists_addFile _ _ _ _ h)

theorem copyIn_local_fileExists (jobDir : List String) (files : List (List String))
    (fs : FS) (hsrc : ∀ f ∈ files, fileExists fs f = true) :
    ∀ p ∈ (copyIn jobDir fs files).2.1, fileExists (copyIn jobDir fs files).1 p = true := by
  induction files generalizing fs with
  | nil =>
    intro p hp
    simp [copyIn] at hp
  | cons f rest ih =>
    intro p hp
    by_cases hf : jobDir <+: f
    · simp only [copyIn, if_pos hf] at hp ⊢
      rcases List.mem_cons.mp hp with rfl | hp'
      · exact copyIn_fileExists_mono _ _ _ _ (hsrc p (List.mem_cons_self _ _))
      · exact ih fs (fun g hg => hsrc g (List.mem_cons_of_mem _ hg)) p hp'
    · simp only [copyIn, if_neg hf] at hp ⊢
      rcases List.mem_cons.mp hp with rfl | hp'
      · exact copyIn_fileExists_mono _ _ _ _ (fileExists_addFile_self _ _ _)
      · exact ih _ (fun g hg => fileExists_addFile _ _ _ _
          (hsrc g (List.mem_cons_of_mem _ hg))) p hp'

theorem package_artifact_exists (jobId : String) (jobDir musicDir : List String)
    (now : Int) (fs : FS) :
    (package_job_files jobId jobDir musicDir now fs).artifact = none ∨
    ∃ p, (package_job_files jobId jobDir musicDir now fs).artifact = some p ∧
      fileExists (package_job_files jobId jobDir musicDir now fs).fs p = true := by
  have hsrc := find_mem_fileExists fs jobDir musicDir now true
  simp only [package_job_files]
  by_cases hempty : (find_downloaded_files fs jobDir musicDir now true).isEmpty
  · rw [if_pos hempty]
    exact Or.inl rfl
  · rw [if_neg hempty]
    by_cases hlen :
        (copyIn jobDir fs (find_downloaded_files fs jobDir musicDir now true)).2.1.length = 1
    · rw [if_pos hlen]
      right
      rcases hhd : (copyIn jobDir fs (find_downloaded_files fs jobDir musicDir now true)).2.1
        with _ | ⟨p, tl⟩
      · rw [hhd] at hlen
        simp at hlen
      · refine ⟨p, by simp [hhd], ?_⟩
        exact copyIn_local_fileExists jobDir _ fs hsrc p
          (by rw [hhd]; exact List.mem_cons_self _ _)
    · rw [if_neg hlen]
      exact Or.inr ⟨_, rfl, fileExists_addFile_self _ _ _⟩

/-- Claim C3, counterexample: on an empty filesystem the packager finds
nothing and returns None (main.py line 168), and the completion block
of `download_worker` (lines 250-255) still marks the job done with a
null `file_path` — so a done job with a null `file_path` does occur,
contrary to the claim that `file_path` is non-null for every done job. -/
theorem C3_counterexample :
    (finishJob ⟨0, ["t"], JobStatus.running, none, [], none, none⟩
        (package_job_files "j" ["t"] ["m"] 0 ⟨[], []⟩).artifact 0).status = JobStatus.done ∧
    (finishJob ⟨0, ["t"], JobStatus.running, none, [], none, none⟩
        (package_job_files "j" ["t"] ["m"] 0 ⟨[], []⟩).artifact 0).file_path = none := by
  exact ⟨rfl, rfl⟩

/-- Claim C3, amended: for every job whose status is done, either its
`file_path` is null (the packager found no files), or `file_path`
references a file that exists on the filesystem as packaging left it
(and, by the cleanup frame property, until the sweeper deletes the
job). -/
theorem C3_amended_done_artifact (jobId : String) (jobDir musicDir : List String)
    (now tnow : Int) (fs : FS) (job : Job) :
    (finishJob job (package_job_files jobId jobDir musicDir now fs).artifact tnow).status =
        JobStatus.done ∧
    ((finishJob job (package_job_files jobId jobDir musicDir now fs).artifact
          tnow).file_path = none ∨
      ∃ p, (finishJob job (package_job_files jobId jobDir musicDir now fs).artifact
            tnow).file_path = some p ∧
        fileExists (package_job_files jobId jobDir musicDir now fs).fs p = true) :=
  ⟨rfl, package_artifact_exists jobId jobDir musicDir now fs⟩

/-- Claim C4: when the packager finds zero matching audio files — the
job-directory scan and the fallback Music scan both come up empty, so
`find_downloaded_files` returns [] — `package_job_files` returns None
and the worker's completion block still marks the job done with a null
`file_path`, not error. -/
theorem C4_no_files_still_done (jobId : String) (jobDir musicDir : List String)
    (now tnow : Int) (fs : FS) (job : Job)
    (hfind : find_downloaded_files fs jobDir musicDir now true = []) :
    (package_job_files jobId jobDir musicDir now fs).artifact = none ∧
    (finishJob job (package_job_files jobId jobDir musicDir now fs).artifact tnow).status =
      JobStatus.done ∧
    (finishJob job (package_job_files jobId jobDir musicDir now fs).artifact
      tnow).file_path = none ∧
    (finishJob job (package_job_files jobId jobDir musicDir now fs).artifact tnow).status ≠
      JobStatus.error := by
  have ha : (package_job_files jobId jobDir musicDir now fs).artifact = none := by
    simp [package_job_files, hfind]
  refine ⟨ha, rfl, ?_, ?_⟩
  · simpa [finishJob] using ha
  · intro h
    exact JobStatus.noConfusion h

/-- Claim C4, witness: an empty filesystem. -/
theorem C4_witness :
    (find_downloaded_files ⟨[], []⟩ ["t"] ["m"] 0 true = []) ∧
    ((package_job_files "j" ["t"] ["m"] 0 ⟨[], []⟩).artifact = none ∧
      (finishJob ⟨0, ["t"], JobStatus.queued, none, [], none, none⟩
        (package_job_files "j" ["t"] ["m"] 0 ⟨[], []⟩).artifact 5).status = JobStatus.done ∧
      (finishJob ⟨0, ["t"], JobStatus.queued, none, [], none, none⟩
        (package_job_files "j" ["t"] ["m"] 0 ⟨[], []⟩).artifact 5).file_path = none ∧
      (finishJob ⟨0, ["t"], JobStatus.queued, none, [], none, none⟩
        (package_job_files "j" ["t"] ["m"] 0 ⟨[], []⟩).artifact 5).status ≠
        JobStatus.error) :=
  ⟨rfl, C4_no_files_still_done "j" ["t"] ["m"] 0 5 ⟨[], []⟩
    ⟨0, ["t"], JobStatus.queued, none, [], none, none⟩ rfl⟩

/- ## C5: single file vs zip -/

theorem copyIn_all_local (jobDir : List String) (fs : FS) (files : List (List String))
    (h : ∀ f ∈ files, jobDir <+: f) :
    copyIn jobDir fs files = (fs, files, []) := by
  induction files with
  | nil => rfl
  | cons f rest ih =>
    have hf := h f (List.mem_cons_self _ _)
    simp only [copyIn, if_pos hf, ih (fun g hg => h g (List.mem_cons_of_mem _ hg))]

/-- Claim C5: when packaging finds the files `ps`, all inside the job
directory: if there is exactly one, the packager returns that file's
path unchanged, creates no archive and leaves the filesystem untouched;
if there are two or more, it returns the path of the single zip
`job_dir/{job_id}.zip`, which it creates on disk with exactly the base
names of all those files as its entries. -/
theorem C5_packaging_single_vs_zip (jobId : String) (jobDir musicDir : List String)
    (now : Int) (fs : FS) (ps : List (List String))
    (hfind : find_downloaded_files fs jobDir musicDir now true = ps)
    (hin : ∀ p ∈ ps, jobDir <+: p) :
    (∀ p, ps = [p] →
      (package_job_files jobId jobDir musicDir now fs).artifact = some p ∧
      (package_job_files jobId jobDir musicDir now fs).archive = none ∧
      (package_job_files jobId jobDir musicDir now fs).fs = fs) ∧
    (2 ≤ ps.length →
      (package_job_files jobId jobDir musicDir now fs).artifact =
        some (jobDir ++ [jobId ++ ".zip"]) ∧
      (package_job_files jobId jobDir musicDir now fs).archive =
        some (jobDir ++ [jobId ++ ".zip"], ps.map pathName) ∧
      fileExists (package_job_files jobId jobDir musicDir now fs).fs
        (jobDir ++ [jobId ++ ".zip"]) = true) := by
  have hcopy := copyIn_all_local jobDir fs ps hin
  constructor
  · rintro p rfl
    simp [package_job_files, hfind, hcopy]
  · intro hlen
    have hne : ps.isEmpty = false := by
      cases ps with
      | nil => simp at hlen
      | cons a l => rfl
    have hlen1 : ¬ ps.length = 1 := by omega
    simp [package_job_files, hfind, hcopy, hne, hlen1, fileExists_addFile_self]

/-- Claim C5, witness: a job directory holding two audio files. -/
theorem C5_witness :
    (find_downloaded_files ⟨[⟨["t", "a.mp3"], 0⟩, ⟨["t", "b.mp3"], 0⟩], [["t"]]⟩
        ["t"] ["m"] 0 true = [["t", "a.mp3"], ["t", "b.mp3"]]) ∧
    ((∀ p, ([["t", "a.mp3"], ["t", "b.mp3"]] : List (List String)) = [p] →
      (package_job_files "j" ["t"] ["m"] 0
        ⟨[⟨["t", "a.mp3"], 0⟩, ⟨["t", "b.mp3"], 0⟩], [["t"]]⟩).artifact = some p ∧
      (package_job_files "j" ["t"] ["m"] 0
        ⟨[⟨["t", "a.mp3"], 0⟩, ⟨["t", "b.mp3"], 0⟩], [["t"]]⟩).archive = none ∧
      (package_job_files "j" ["t"] ["m"] 0
        ⟨[⟨["t", "a.mp3"], 0⟩, ⟨["t", "b.mp3"], 0⟩], [["t"]]⟩).fs =
          ⟨[⟨["t", "a.mp3"], 0⟩, ⟨["t", "b.mp3"], 0⟩], [["t"]]⟩) ∧
    (2 ≤ ([["t", "a.mp3"], ["t", "b.mp3"]] : List (List String)).length →
      (package_job_files "j" ["t"] ["m"] 0
        ⟨[⟨["t", "a.mp3"], 0⟩, ⟨["t", "b.mp3"], 0⟩], [["t"]]⟩).artifact =
        some (["t"] ++ ["j" ++ ".zip"]) ∧
      (package_job_files "j" ["t"] ["m"] 0
        ⟨[⟨["t", "a.mp3"], 0⟩, ⟨["t", "b.mp3"], 0⟩], [["t"]]⟩).archive =
        some (["t"] ++ ["j" ++ ".zip"],
          ([["t", "a.mp3"], ["t", "b.mp3"]] : List (List String)).map pathName) ∧
      fileExists (package_job_files "j" ["t"] ["m"] 0
          ⟨[⟨["t", "a.mp3"], 0⟩, ⟨["t", "b.mp3"], 0⟩], [["t"]]⟩).fs
        (["t"] ++ ["j" ++ ".zip"]) = true)) :=
  ⟨by decide,
    C5_packaging_single_vs_zip "j" ["t"] ["m"] 0
      ⟨[⟨["t", "a.mp3"], 0⟩, ⟨["t", "b.mp3"], 0⟩], [["t"]]⟩
      [["t", "a.mp3"], ["t", "b.mp3"]] (by decide) (by decide)⟩

/- ## Cleanup sweeper (main.py lines 556-573) -/

/-- `JOB_RETENTION = timedelta(hours=2)` (main.py line 53), in
seconds. -/
def JOB_RETENTION : Int := 7200

/-- `shutil.rmtree(dir)`: remove the directory tree rooted at `dir` —
every file and directory whose path has `dir` as a prefix. -/
def rmtree (fs : FS) (dir : List String) : FS :=
  ⟨fs.files.filter (fun f => decide (¬ dir <+: f.path)),
   fs.dirs.filter (fun d => decide (¬ dir <+: d))⟩

/-- One iteration of the deletion loop of `cleanup_loop` (main.py
lines 565-572): `job_store.pop(jid, None)`, and if a job was found,
`shutil.rmtree(job.get('dir', ''), ignore_errors=True)`.  Since dict
keys are unique, `pop` removes exactly the entries with that key. -/
def cleanupStep (acc : List (String × Job) × FS) (jid : String) :
    List (String × Job) × FS :=
  match acc.1.find? (fun e => decide (e.1 = jid)) with
  | some e => (acc.1.filter (fun e' => decide (e'.1 ≠ jid)), rmtree acc.2 e.2.dir)
  | none => (acc.1.filter (fun e' => decide (e'.1 ≠ jid)), acc.2)

/-- One pass of `cleanup_loop` (main.py lines 558-572) at time `now`:
collect into `to_delete` every job id whose record satisfies
`now - created > JOB_RETENTION` (`created` is always set, line 436/520),
then pop each collected id and remove its backing directory tree. -/
def cleanup_pass (now : Int) (st : List (String × Job)) (fs : FS) :
    List (String × Job) × FS :=
  ((st.filter (fun e => decide (JOB_RETENTION < now - e.2.created_at))).map Prod.fst).foldl
    cleanupStep (st, fs)

theorem foldl_congr_mem {α β : Type} (f g : β → α → β) (l : List α) (b : β)
    (h : ∀ a ∈ l, ∀ x, f x a = g x a) : l.foldl f b = l.foldl g b := by
  induction l generalizing b with
  | nil => rfl
  | cons a rest ih =>
    simp only [List.foldl_cons]
    rw [h a (List.mem_cons_self _ _)]
    exact ih _ (fun a' ha' x => h a' (List.mem_cons_of_mem _ ha') x)

theorem cleanupStep_fst (acc : List (String × Job) × FS) (jid : String) :
    (cleanupStep acc jid).1 = acc.1.filter (fun e => decide (e.1 ≠ jid)) := by
  rcases h : acc.1.find? (fun e => decide (e.1 = jid)) with _ | e <;>
    simp [cleanupStep, h]

theorem cleanup_fold_fst (ids : List String) (st : List (String × Job)) (fs : FS) :
    (ids.foldl cleanupStep (st, fs)).1 = st.filter (fun e => decide (e.1 ∉ ids)) := by
  induction ids generalizing st fs with
  | nil => simp
  | cons a rest ih =>
    simp only [List.foldl_cons]
    rcases hstep : cleanupStep (st, fs) a with ⟨st1, fs1⟩
    have h1 : st1 = st.filter (fun e => decide (e.1 ≠ a)) := by
      have := cleanupStep_fst (st, fs) a
      rw [hstep] at this
      exact this
    rw [ih st1 fs1, h1, List.filter_filter]
    apply List.filter_congr
    intro e he
    by_cases h1 : e.1 = a <;> by_cases h2 : e.1 ∈ rest <;>
      simp [List.mem_cons, h1, h2]

theorem find?_filter_key_ne (st : List (String × Job)) (a jid : String) (h : jid ≠ a) :
    (st.filter (fun e => decide (e.1 ≠ a))).find? (fun e => decide (e.1 = jid)) =
      st.find? (fun e => decide (e.1 = jid)) := by
  induction st with
  | nil => rfl
  | cons e rest ih =>
    by_cases h1 : e.1 = a
    · have h2 : ¬ e.1 = jid := by
        rw [h1]
        exact fun hh => h hh.symm
      rw [List.filter_cons_of_neg (by simpa using h1),
        List.find?_cons_of_neg _ (by simpa using h2), ih]
    · rw [List.filter_cons_of_pos (by simpa using h1)]
      by_cases h2 : e.1 = jid
      · rw [List.find?_cons_of_pos _ (by simpa using h2),
          List.find?_cons_of_pos _ (by simpa using h2)]
      · rw [List.find?_cons_of_neg _ (by simpa using h2),
          List.find?_cons_of_neg _ (by simpa using h2), ih]

theorem cleanup_fold_snd (ids : List String) (st : List (String × Job)) (fs : FS)
    (hnd : ids.Nodup) :
    (ids.foldl cleanupStep (st, fs)).2 =
      ids.foldl (fun acc jid =>
        match st.find? (fun e => decide (e.1 = jid)) with
        | some e => rmtree acc e.2.dir
        | none => acc) fs := by
  induction ids generalizing st fs with
  | nil => rfl
  | cons a rest ih =>
    simp only [List.foldl_cons]
    have hnd' : rest.Nodup := (List.nodup_cons.mp hnd).2
    have hna : a ∉ rest := (List.nodup_cons.mp hnd).1
    rcases hfind : st.find? (fun e => decide (e.1 = a)) with _ | e
    · have hstep : cleanupStep (st, fs) a =
          (st.filter (fun e' => decide (e'.1 ≠ a)), fs) := by
        simp [cleanupStep, hfind]
      rw [hstep, ih _ _ hnd']
      simp only [hfind]
      apply foldl_congr_mem
      intro jid hjid x
      rw [find?_filter_key_ne st a jid (fun he => hna (he ▸ hjid))]
    · have hstep : cleanupStep (st, fs) a =
          (st.filter (fun e' => decide (e'.1 ≠ a)), rmtree fs e.2.dir) := by
        simp [cleanupStep, hfind]
      rw [hstep, ih _ _ hnd']
      simp only [hfind]
      apply foldl_congr_mem
      intro jid hjid x
      rw [find?_filter_key_ne st a jid (fun he => hna (he ▸ hjid))]

theorem find?_key_self (st : List (String × Job)) (e : String × Job)
    (hkeys : (st.map Prod.fst).Nodup) (he : e ∈ st) :
    st.find? (fun x => decide (x.1 = e.1)) = some e := by
  induction st with
  | nil => simp at he
  | cons f rest ih =>
    have hks : (f.1 :: rest.map Prod.fst).Nodup := by simpa using hkeys
    rcases List.mem_cons.mp he with rfl | he'
    · simp [List.find?_cons]
    · have hkeys' : (rest.map Prod.fst).Nodup := (List.nodup_cons.mp hks).2
      have hf : f.1 ∉ rest.map Prod.fst := (List.nodup_cons.mp hks).1
      have hne : ¬ f.1 = e.1 := by
        intro hh
        apply hf
        rw [hh]
        exact List.mem_map_of_mem Prod.fst he'
      simp [List.find?_cons, hne, ih hkeys' he']

theorem key_inj (st : List (String × Job)) (hkeys : (st.map Prod.fst).Nodup)
    (e f : String × Job) (he : e ∈ st) (hf : f ∈ st) (hk : e.1 = f.1) : e = f := by
  have h1 := find?_key_self st e hkeys he
  have h2 := find?_key_self st f hkeys hf
  rw [hk, h2] at h1
  exact (Option.some.inj h1).symm

theorem any_path_filter (l : List FSFile) (d p : List String) :
    ((l.filter (fun f => decide (¬ d <+: f.path))).any (fun f => decide (f.path = p))) =
      (l.any (fun f => decide (f.path = p)) && decide (¬ d <+: p)) := by
  induction l with
  | nil => simp
  | cons f rest ih =>
    by_cases h1 : d <+: f.path
    · rw [List.filter_cons_of_neg (by simpa using h1), ih, List.any_cons]
      by_cases h2 : f.path = p
      · have hdp : d <+: p := h2 ▸ h1
        simp [hdp]
      · simp [h2]
    · rw [List.filter_cons_of_pos (by simpa using h1), List.any_cons, List.any_cons, ih]
      by_cases h2 : f.path = p
      · have hdp : ¬ d <+: p := fun hh => h1 (by rw [h2]; exact hh)
        simp [h2, hdp]
      · simp [h2]

theorem fileExists_rmtree (fs : FS) (d p : List String) :
    fileExists (rmtree fs d) p = (fileExists fs p && decide (¬ d <+: p)) := by
  simp only [fileExists, rmtree]
  exact any_path_filter fs.files d p

theorem fileExists_foldl_rmtree (dirs : List (List String)) (fs : FS) (p : List String) :
    fileExists (dirs.foldl rmtree fs) p =
      (fileExists fs p && dirs.all (fun d => decide (¬ d <+: p))) := by
  induction dirs generalizing fs with
  | nil => simp
  | cons d rest ih =>
    simp only [List.foldl_cons, List.all_cons]
    rw [ih, fileExists_rmtree, Bool.and_assoc]

theorem dirMem_rmtree (fs : FS) (d d' : List String) :
    d' ∈ (rmtree fs d).dirs ↔ (d' ∈ fs.dirs ∧ ¬ d <+: d') := by
  simp [rmtree, List.mem_filter]

theorem dirMem_foldl_rmtree (dirs : List (List String)) (fs : FS) (d' : List String) :
    d' ∈ (dirs.foldl rmtree fs).dirs ↔ (d' ∈ fs.dirs ∧ ∀ d ∈ dirs, ¬ d <+: d') := by
  induction dirs generalizing fs with
  | nil => simp
  | cons d rest ih =>
    simp only [List.foldl_cons]
    rw [ih, dirMem_rmtree]
    constructor
    · rintro ⟨⟨h1, h2⟩, h3⟩
      refine ⟨h1, fun x hx => ?_⟩
      rcases List.mem_cons.mp hx with rfl | hx'
      · exact h2
      · exact h3 x hx'
    · rintro ⟨h1, h2⟩
      exact ⟨⟨h1, h2 d (List.mem_cons_self _ _)⟩,
        fun x hx => h2 x (List.mem_cons_of_mem _ hx)⟩

/-- The specification of one cleanup pass at time `now`: the surviving
records are exactly the non-expired ones; every expired job's backing
directory tree is gone from disk; every file and directory not under
an expired job's backing directory is untouched. -/
def CleanupPassSpec (now : Int) (st : List (String × Job)) (fs : FS) : Prop :=
  (∀ e : String × Job, e ∈ (cleanup_pass now st fs).1 ↔
      e ∈ st ∧ ¬ (e.2.created_at < now - JOB_RETENTION)) ∧
  (∀ e ∈ st, e.2.created_at < now - JOB_RETENTION →
      (∀ p, e.2.dir <+: p → fileExists (cleanup_pass now st fs).2 p = false) ∧
      e.2.dir ∉ (cleanup_pass now st fs).2.dirs) ∧
  (∀ p, (∀ e ∈ st, e.2.created_at < now - JOB_RETENTION → ¬ e.2.dir <+: p) →
      fileExists (cleanup_pass now st fs).2 p = fileExists fs p) ∧
  (∀ d, (∀ e ∈ st, e.2.created_at < now - JOB_RETENTION → ¬ e.2.dir <+: d) →
      (d ∈ (cleanup_pass now st fs).2.dirs ↔ d ∈ fs.dirs))

/-- Claim C8: one cleanup pass at time `now` removes from the job store
exactly the jobs with `created_at < now - JOB_RETENTION`, deletes each
removed job's backing directory tree from disk, and leaves every other
job's record — and every file and directory not under a removed job's
backing directory — unchanged.  The hypothesis records that dict keys
are unique. -/
theorem C8_cleanup_sweep (now : Int) (st : List (String × Job)) (fs : FS)
    (hkeys : (st.map Prod.fst).Nodup) : CleanupPassSpec now st fs := by
  have harith : ∀ c : Int, (JOB_RETENTION < now - c) ↔ (c < now - JOB_RETENTION) := by
    intro c
    constructor <;> intro hh <;> omega
  have hids_nd :
      ((st.filter (fun e => decide (JOB_RETENTION < now - e.2.created_at))).map
        Prod.fst).Nodup := by
    have hsub := List.Sublist.map Prod.fst
      (List.filter_sublist (p := fun e => decide (JOB_RETENTION < now - e.2.created_at)) st)
    exact List.Nodup.sublist hsub hkeys
  have hst : (cleanup_pass now st fs).1 =
      st.filter (fun e => decide (e.1 ∉
        (st.filter (fun x => decide (JOB_RETENTION < now - x.2.created_at))).map
          Prod.fst)) :=
    cleanup_fold_fst _ st fs
  have hfs1 := cleanup_fold_snd
    ((st.filter (fun e => decide (JOB_RETENTION < now - e.2.created_at))).map Prod.fst)
    st fs hids_nd
  have hfs2 : (cleanup_pass now st fs).2 =
      ((st.filter (fun e => decide (JOB_RETENTION < now - e.2.created_at))).map
        (fun e => e.2.dir)).foldl rmtree fs := by
    show (((st.filter (fun e => decide (JOB_RETENTION < now - e.2.created_at))).map
        Prod.fst).foldl cleanupStep (st, fs)).2 = _
    rw [hfs1, List.foldl_map, List.foldl_map]
    apply foldl_congr_mem
    intro e he x
    rw [find?_key_self st e hkeys (List.mem_filter.mp he).1]
  have hmem_ids : ∀ e ∈ st, (e.1 ∈
      (st.filter (fun x => decide (JOB_RETENTION < now - x.2.created_at))).map Prod.fst ↔
      e.2.created_at < now - JOB_RETENTION) := by
    intro e he
    constructor
    · intro hin
      rcases List.mem_map.mp hin with ⟨e', he', hk⟩
      have he'st := (List.mem_filter.mp he').1
      have hexp : JOB_RETENTION < now - e'.2.created_at := by
        simpa using (List.mem_filter.mp he').2
      have heq : e' = e := key_inj st hkeys e' e he'st he hk
      rw [heq] at hexp
      exact (harith _).mp hexp
    · intro hexp
      refine List.mem_map.mpr ⟨e, List.mem_filter.mpr ⟨he, ?_⟩, rfl⟩
      simp only [decide_eq_true_eq]
      exact (harith _).mpr hexp
  refine ⟨?_, ?_, ?_, ?_⟩
  · intro e
    rw [hst, List.mem_filter]
    constructor
    · rintro ⟨he, hdec⟩
      rw [decide_eq_true_eq] at hdec
      exact ⟨he, fun hexp => hdec ((hmem_ids e he).mpr hexp)⟩
    · rintro ⟨he, hnexp⟩
      refine ⟨he, ?_⟩
      rw [decide_eq_true_eq]
      intro hin
      exact hnexp ((hmem_ids e he).mp hin)
  · intro e he hexp
    have hdirmem : e.2.dir ∈
        (st.filter (fun x => decide (JOB_RETENTION < now - x.2.created_at))).map
          (fun x => x.2.dir) := by
      refine List.mem_map.mpr ⟨e, List.mem_filter.mpr ⟨he, ?_⟩, rfl⟩
      simp only [decide_eq_true_eq]
      exact (harith _).mpr hexp
    constructor
    · intro p hp
      rw [hfs2, fileExists_foldl_rmtree]
      have hallf : ((st.filter (fun x => decide (JOB_RETENTION < now - x.2.created_at))).map
          (fun x => x.2.dir)).all (fun d => decide (¬ d <+: p)) = false := by
        rcases hall : ((st.filter
            (fun x => decide (JOB_RETENTION < now - x.2.created_at))).map
            (fun x => x.2.dir)).all (fun d => decide (¬ d <+: p)) with _ | _
        · exact hall
        · exfalso
          have hx := List.all_eq_true.mp hall _ hdirmem
          rw [decide_eq_true_eq] at hx
          exact hx hp
      rw [hallf, Bool.and_false]
    · rw [hfs2]
      intro hmem
      rcases (dirMem_foldl_rmtree _ _ _).mp hmem with ⟨_, hall⟩
      exact hall e.2.dir hdirmem (List.prefix_refl _)
  · intro p hfp
    rw [hfs2, fileExists_foldl_rmtree]
    have hall : ((st.filter (fun x => decide (JOB_RETENTION < now - x.2.created_at))).map
        (fun x => x.2.dir)).all (fun d => decide (¬ d <+: p)) = true := by
      rw [List.all_eq_true]
      intro d hd
      rcases List.mem_map.mp hd with ⟨e, he, rfl⟩
      have hest := (List.mem_filter.mp he).1
      have hexp : JOB_RETENTION < now - e.2.created_at := by
        simpa using (List.mem_filter.mp he).2
      simp only [decide_eq_true_eq]
      exact hfp e hest ((harith _).mp hexp)
    rw [hall, Bool.and_true]
  · intro d hfd
    rw [hfs2, dirMem_foldl_rmtree]
    constructor
    · rintro ⟨h1, _⟩
      exact h1
    · intro h1
      refine ⟨h1, ?_⟩
      intro d' hd'
      rcases List.mem_map.mp hd' with ⟨e, he, rfl⟩
      have hest := (List.mem_filter.mp he).1
      have hexp : JOB_RETENTION < now - e.2.created_at := by
        simpa using (List.mem_filter.mp he).2
      exact hfd e hest ((harith _).mp hexp)

/-- Concrete job store for the C8 witness: job "a" expired, job "b"
fresh at time 10000. -/
def c8Store : List (String × Job) :=
  [("a", ⟨0, ["t", "a"], JobStatus.done, none, [], none, none⟩),
   ("b", ⟨9000, ["t", "b"], JobStatus.done, none, [], none, none⟩)]

/-- Concrete filesystem for the C8 witness: one file under each job's
backing directory. -/
def c8Fs : FS :=
  ⟨[⟨["t", "a", "x.mp3"], 0⟩, ⟨["t", "b", "y.mp3"], 9000⟩],
   [["t"], ["t", "a"], ["t", "b"]]⟩

/-- Claim C8, witness: a concrete two-job store, one job past the
retention window. -/
theorem C8_witness :
    (c8Store.map Prod.fst).Nodup ∧ CleanupPassSpec 10000 c8Store c8Fs :=
  ⟨by decide, C8_cleanup_sweep 10000 c8Store c8Fs (by decide)⟩

/- ## C9: the `/download/<job_id>` endpoint (main.py lines 535-552) -/

/-- HTTP outcomes of the `/download/<job_id>` endpoint. -/
inductive HttpResp
  | notFound404
  | notReady409
  | fileMissing410
  | fileResp : List String → HttpResp
deriving DecidableEq, Repr

/-- `download_job` (main.py lines 535-552): 404 when the job id is not
in the store; 409 when the job's status is not "done" or its
`file_path` is unset; 410 when the recorded artifact no longer exists
on disk (the redundant falsy re-check of `file_path` at line 547 is
kept); otherwise the artifact is streamed. -/
def download_job (st : List (String × Job)) (fs : FS) (jid : String) : HttpResp :=
  match st.find? (fun e => decide (e.1 = jid)) with
  | none => HttpResp.notFound404
  | some e =>
      if e.2.status ≠ JobStatus.done ∨ e.2.file_path = none then HttpResp.notReady409
      else
        match e.2.file_path with
        | none => HttpResp.fileMissing410
        | some p =>
            if fileExists fs p = true then HttpResp.fileResp p else HttpResp.fileMissing410

/-- Claim C9: fetching the artifact of a job id absent from the store
returns 404; fetching it for a stored job whose status is not done or
whose file_path is null returns 409 (not ready); fetching it for a done
job whose file_path is set but whose file no longer exists on disk
returns 410 (file missing). -/
theorem C9_download_endpoint (st : List (String × Job)) (fs : FS) (jid : String) :
    (st.find? (fun e => decide (e.1 = jid)) = none →
      download_job st fs jid = HttpResp.notFound404) ∧
    (∀ e, st.find? (fun e' => decide (e'.1 = jid)) = some e →
      (e.2.status ≠ JobStatus.done ∨ e.2.file_path = none) →
      download_job st fs jid = HttpResp.notReady409) ∧
    (∀ e p, st.find? (fun e' => decide (e'.1 = jid)) = some e →
      e.2.status = JobStatus.done → e.2.file_path = some p → fileExists fs p = false →
      download_job st fs jid = HttpResp.fileMissing410) := by
  refine ⟨?_, ?_, ?_⟩
  · intro h
    simp [download_job, h]
  · intro e he hcond
    simp [download_job, he, hcond]
  · intro e p he hs hp hex
    have hcond : ¬ (e.2.status ≠ JobStatus.done ∨ e.2.file_path = none) := by
      rintro (hc | hc)
      · exact hc hs
      · rw [hp] at hc
        exact Option.noConfusion hc
    simp [download_job, he, hcond, hp, hex, hs]

/-- Concrete store for the C9 witness: job "r" still running, job "d"
done with an artifact path that is no longer on disk. -/
def c9Store : List (String × Job) :=
  [("r", ⟨0, ["t", "r"], JobStatus.running, none, [], none, none⟩),
   ("d", ⟨0, ["t", "d"], JobStatus.done, some ["t", "d", "x.mp3"], [], none, some 1⟩)]

/-- Claim C9, witness: the three error outcomes at concrete inputs. -/
theorem C9_witness :
    download_job c9Store ⟨[], []⟩ "missing" = HttpResp.notFound404 ∧
    download_job c9Store ⟨[], []⟩ "r" = HttpResp.notReady409 ∧
    download_job c9Store ⟨[], []⟩ "d" = HttpResp.fileMissing410 :=
  ⟨(C9_download_endpoint c9Store ⟨[], []⟩ "missing").1 (by decide),
   (C9_download_endpoint c9Store ⟨[], []⟩ "r").2.1
     ("r", ⟨0, ["t", "r"], JobStatus.running, none, [], none, none⟩) (by decide)
     (Or.inl (by decide)),
   (C9_download_endpoint c9Store ⟨[], []⟩ "d").2.2
     ("d", ⟨0, ["t", "d"], JobStatus.done, some ["t", "d", "x.mp3"], [], none, some 1⟩)
     ["t", "d", "x.mp3"] (by decide) rfl rfl (by decide)⟩

/- ## C10: `/start` with an empty queue (main.py lines 408-452) -/

/-- A queue item as read by `start_downloads`: the `title` and
`artist` fields accessed via `item.get` (main.py line 447). -/
structure QueueItem where
  title : Option String
  artist : Option String
deriving DecidableEq, Repr

/-- `item.get("title", item.get("artist"))`. -/
def itemLabel (it : QueueItem) : Option String :=
  match it.title with
  | some t => some t
  | none => it.artist

/-- The process-wide status snapshot `status` (main.py lines 55-60). -/
structure StatusSnap where
  running : Bool
  current : Option String
  message : String
  active_job_id : Option String
deriving DecidableEq, Repr

/-- The HTTP response of `/start`: both branches redirect to the index
page (main.py lines 415 and 452). -/
inductive StartResp
  | redirectIndex
deriving DecidableEq, Repr

/-- Result of one call of `start_downloads`: the response, the pending
queue, the job store and the status snapshot afterwards, whether a
worker thread was spawned, and the target path handed to it. -/
structure StartResult where
  response : StartResp
  queue : List QueueItem
  store : List (String × Job)
  stat : StatusSnap
  workerStarted : Bool
  workerTarget : Option (List String)
deriving DecidableEq, Repr

/-- `job_store[job_id]["status"] = s` on an association list. -/
def setJobStatus (st : List (String × Job)) (jid : String) (s : JobStatus) :
    List (String × Job) :=
  st.map (fun e => if e.1 = jid then (e.1,
    ⟨e.2.created_at, e.2.dir, s, e.2.file_path, e.2.logs, e.2.mode, e.2.ready_at⟩) else e)

/-- `start_downloads` (main.py lines 408-452).  Values the code draws
from the environment are parameters: the fresh uuid (`jobId`), the
current time (`now`), and the `tempfile.mkdtemp` result (`mkdtempDir`).
With an empty queue it redirects at once (lines 413-415); otherwise it
drains the queue, picks the target path from the download mode (lines
426-433; the job's backing dir is the mkdtemp dir in both branches),
records the job as "queued" (line 436), spawns the worker (line 441),
updates the status snapshot (lines 445-447) and sets the job "running"
(line 449). -/
def start_downloads (q : List QueueItem) (st : List (String × Job)) (stat : StatusSnap)
    (downloadMode : String) (downloadPath : Option (List String)) (jobId : String)
    (now : Int) (mkdtempDir : List String) : StartResult :=
  if q.isEmpty then ⟨StartResp.redirectIndex, q, st, stat, false, none⟩
  else
    let items := q
    let targetPath :=
      match downloadPath with
      | some dp => if downloadMode = "server" then dp ++ ["ytmdl_" ++ jobId] else mkdtempDir
      | none => mkdtempDir
    let st1 := st ++ [(jobId,
      ⟨now, mkdtempDir, JobStatus.queued, none, [], some downloadMode, none⟩)]
    let stat1 : StatusSnap := ⟨true,
      (match items.head? with
       | some it => itemLabel it
       | none => none),
      "Job " ++ jobId ++ " started", stat.active_job_id⟩
    ⟨StartResp.redirectIndex, [], setJobStatus st1 jobId JobStatus.running, stat1, true,
      some targetPath⟩

/-- Claim C10: when the pending queue is empty, `/start` returns the
redirect without creating a job, spawning a worker, or modifying the
queue, the job store, or the status snapshot. -/
theorem C10_empty_queue_noop (st : List (String × Job)) (stat : StatusSnap)
    (downloadMode : String) (downloadPath : Option (List String)) (jobId : String)
    (now : Int) (mkdtempDir : List String) :
    start_downloads [] st stat downloadMode downloadPath jobId now mkdtempDir =
      ⟨StartResp.redirectIndex, [], st, stat, false, none⟩ := rfl

end Ytms
